import Mathlib

/-!
Shallow embedding of `src/calibrator.h`, the piecewise-linear calibration
engine `Calibrator<Numeric>`.

Modelling conventions:
* The generic arithmetic type `Numeric` is modelled by `ℚ` (exact arithmetic).
* `uint32_t` arithmetic on `_numPoints` is modelled by natural numbers, with
  unsigned subtraction rendered as addition of the modular complement followed
  by `% 2^32` (`usub`), exactly where the C++ subtracts from the unsigned
  counter (the loop bounds `_numPoints - 1` and the indices `_numPoints - 1`,
  `_numPoints - 2`).
* Heap allocation (`new Numeric[...]`) is modelled by an explicit heap inside
  the calibrator state: a list of allocated blocks, with the member pointers
  `_m` and `_b` represented as block addresses.  The source never executes
  `delete[]`, so the model never removes a block.
* The constructor of the C++ class leaves `_m` and `_b` uninitialised; the
  model records this as the `Ptr.undef` value.  Any C++ operation whose
  behaviour is undefined — reading an indeterminate pointer (the
  `_m == nullptr` guard on a never-assigned member) or reading an array out of
  bounds — is modelled as `none`.
* Division is rational division; Lean's convention `q / 0 = 0` stands in for
  the unspecified result of a zero-denominator division.  Theorems about
  zero-width segments rely on the denominator being zero, and the
  counterexamples built on tied tables remain counterexamples under any value
  the division could produce, because the expected calibrated value differs
  from the one reconstructible from the other table entries.
-/

/-- Modulus of the C++ `uint32_t` type used for `_numPoints`. -/
def u32 : Nat := 2 ^ 32

/-- Unsigned 32-bit subtraction `a - b` (for `a < 2^32`, `b ≤ 2^32`), as
performed by the C++ on the `uint32_t` member `_numPoints`. -/
def usub (a b : Nat) : Nat := (a + (u32 - b)) % u32

/-- Model of the `Numeric*` member pointers `_m` and `_b`: either still
indeterminate (never assigned since construction) or the address of an
allocated block.  No path in the source ever stores `nullptr`. -/
inductive Ptr where
  | undef : Ptr
  | addr : Nat → Ptr
deriving DecidableEq, Repr

/-- State of a `Calibrator<Numeric>` object, together with the heap blocks it
has allocated (`heap`; addresses are list indices, allocation appends). -/
structure CalState where
  rawValues : List ℚ
  calibrationValues : List ℚ
  numPoints : Nat
  mPtr : Ptr
  bPtr : Ptr
  limitOutput : Bool
  heap : List (List ℚ)
deriving DecidableEq, Repr

/-- Embedding of the constructor (`calibrator.h` lines 16–23): it records the
two borrowed sequences, the count and the flag, performs no validation, and
leaves the member pointers `_m`, `_b` indeterminate (the C++ constructor never
assigns them). -/
def mkCalibrator (rawValues calibrationValues : List ℚ) (numPoints : Nat)
    (limitOutputToCalibrationRange : Bool) : CalState :=
  { rawValues := rawValues
    calibrationValues := calibrationValues
    numPoints := numPoints
    mPtr := Ptr.undef
    bPtr := Ptr.undef
    limitOutput := limitOutputToCalibrationRange
    heap := [] }

/-- Embedding of the sortedness loop of `begin` (`calibrator.h` lines 33–40):
iterates `i` from the first argument for as many steps as the second argument
(the loop bound `_numPoints - 1` in `uint32_t` arithmetic), reading
`_rawValues[i]` and `_rawValues[i+1]` each step; returns `some false` at the
first inversion, `some true` when the loop ends, `none` on an out-of-bounds
read. -/
def checkSortedFrom (raw : List ℚ) : Nat → Nat → Option Bool
  | _, 0 => some true
  | i, k + 1 =>
    match raw[i]?, raw[i + 1]? with
    | some a, some b => if a > b then some false else checkSortedFrom raw (i + 1) k
    | _, _ => none

/-- Embedding of the fitting loop of `begin` (`calibrator.h` lines 51–55):
for `k` successive segment indices starting at the first argument it reads
the two table entries of the segment and computes
`m = (cal[i+1] - cal[i]) / (raw[i+1] - raw[i])` and `b = cal[i] - m*raw[i]`,
collecting the contents the loop stores into `_m` and `_b`; `none` on an
out-of-bounds read. -/
def coeffsFrom (raw cal : List ℚ) : Nat → Nat → Option (List ℚ × List ℚ)
  | _, 0 => some ([], [])
  | i, k + 1 =>
    match cal[i]?, cal[i + 1]?, raw[i]?, raw[i + 1]? with
    | some c0, some c1, some r0, some r1 =>
      match coeffsFrom raw cal (i + 1) k with
      | some (ms, bs) =>
          some (((c1 - c0) / (r1 - r0)) :: ms,
                (c0 - ((c1 - c0) / (r1 - r0)) * r0) :: bs)
      | none => none
    | _, _, _, _ => none

/-- Tail of `begin` (`calibrator.h` lines 47–57): the two
`new Numeric[_numPoints - 1]` allocations (modelled as appending two blocks to
the heap and repointing `_m` and `_b` at them; nothing is freed first), filled
with the fitting loop's results, then `return true`. -/
def beginFit (c : CalState) : Option (List ℚ × List ℚ) → Option (Bool × CalState)
  | none => none
  | some (ms, bs) =>
      some (true,
        { c with
          mPtr := Ptr.addr c.heap.length
          bPtr := Ptr.addr (c.heap.length + 1)
          heap := c.heap ++ [ms, bs] })

/-- Continuation of `begin` after the sortedness loop: `_numPoints <= 1`
check, then the two allocations and the fitting loop (`beginFit` consumes the
loop's result). -/
def beginCheck (c : CalState) : Option Bool → Option (Bool × CalState)
  | none => none
  | some false => some (false, c)
  | some true =>
    if c.numPoints ≤ 1 then some (false, c)
    else beginFit c (coeffsFrom c.rawValues c.calibrationValues 0 (usub c.numPoints 1))

/-- Embedding of `Calibrator::begin` (`calibrator.h` lines 30–58).  The
sortedness loop runs first, with the `uint32_t` bound `_numPoints - 1`
(which wraps to `2^32 - 1` when `_numPoints = 0`); `beginCheck` continues with
the `_numPoints <= 1` check and the fitting.  Returns the C++ return value
paired with the state after the call, or `none` on undefined behaviour. -/
def beginModel (c : CalState) : Option (Bool × CalState) :=
  beginCheck c (checkSortedFrom c.rawValues 0 (usub c.numPoints 1))

/-- Embedding of the segment scan of `calibrate` (`calibrator.h` lines
92–99): iterates `i` from the first argument for as many steps as the second
argument (the bound `_numPoints - 1`), returning the value of the first
segment with `raw[i] <= x <= raw[i+1]`; `some none` when the loop falls
through with no match (the last-resort fallback is then taken), `none` on an
out-of-bounds read. -/
def scanSeg (raw ms bs : List ℚ) (x : ℚ) : Nat → Nat → Option (Option ℚ)
  | _, 0 => some none
  | i, k + 1 =>
    match raw[i]?, raw[i + 1]? with
    | some r0, some r1 =>
      if r0 ≤ x ∧ x ≤ r1 then
        match ms[i]?, bs[i]? with
        | some mi, some bi => some (some (mi * x + bi))
        | _, _ => none
      else scanSeg raw ms bs x (i + 1) k
    | _, _ => none

/-- Return of a clamped value read from `_calibrationValues` (`calibrator.h`
lines 77 and 85): `none` if the read is out of bounds. -/
def calClampVal (c : CalState) : Option ℚ → Option (ℚ × CalState)
  | some v => some (v, c)
  | none => none

/-- Application of a segment's linear model `m * x + b` read from the `_m`
and `_b` arrays (`calibrator.h` lines 79, 87 and 96): `none` if a read is out
of bounds. -/
def calLine (c : CalState) (x : ℚ) : Option ℚ → Option ℚ → Option (ℚ × CalState)
  | some m, some b => some (m * x + b, c)
  | _, _ => none

/-- Consumption of the segment scan's outcome (`calibrator.h` lines 92–102):
a found segment's value is returned; on fall-through the raw input is
returned unchanged (the last-resort fallback). -/
def calScan (c : CalState) (x : ℚ) : Option (Option ℚ) → Option (ℚ × CalState)
  | none => none
  | some (some v) => some (v, c)
  | some none => some (x, c)

/-- In-range branch of `calibrate`: the linear scan over the
`_numPoints - 1` segments. -/
def calInRange (c : CalState) (x : ℚ) (ms bs : List ℚ) : Option (ℚ × CalState) :=
  calScan c x (scanSeg c.rawValues ms bs x 0 (usub c.numPoints 1))

/-- Above-range check of `calibrate` (`calibrator.h` lines 82–89), fed the
read of `_rawValues[_numPoints - 1]`: clamp to the last calibrated value or
extrapolate with segment `_numPoints - 2`; otherwise fall through to the
scan. -/
def calAbove (c : CalState) (x : ℚ) (ms bs : List ℚ) : Option ℚ → Option (ℚ × CalState)
  | none => none
  | some rLast =>
    if x > rLast then
      if c.limitOutput then calClampVal c c.calibrationValues[usub c.numPoints 1]?
      else calLine c x ms[usub c.numPoints 2]? bs[usub c.numPoints 2]?
    else calInRange c x ms bs

/-- Below-range check of `calibrate` (`calibrator.h` lines 74–81), fed the
read of `_rawValues[0]`: clamp to the first calibrated value or extrapolate
with segment 0; otherwise continue with the above-range check. -/
def calBelow (c : CalState) (x : ℚ) (ms bs : List ℚ) : Option ℚ → Option (ℚ × CalState)
  | none => none
  | some r0 =>
    if x < r0 then
      if c.limitOutput then calClampVal c c.calibrationValues[0]?
      else calLine c x ms[0]? bs[0]?
    else calAbove c x ms bs c.rawValues[usub c.numPoints 1]?

/-- Dereference of the two coefficient arrays once the guard has passed. -/
def calArrays (c : CalState) (x : ℚ) : Option (List ℚ) → Option (List ℚ) → Option (ℚ × CalState)
  | some ms, some bs => calBelow c x ms bs c.rawValues[0]?
  | _, _ => none

/-- The `_m == nullptr || _b == nullptr` guard (`calibrator.h` lines 70–71):
reading a still-indeterminate member pointer is undefined behaviour (`none`);
valid addresses make the guard false (no path ever stores `nullptr`), and
execution continues with the member arrays. -/
def calGuard (c : CalState) (x : ℚ) : Ptr → Ptr → Option (ℚ × CalState)
  | Ptr.undef, _ => none
  | _, Ptr.undef => none
  | Ptr.addr ma, Ptr.addr ba => calArrays c x c.heap[ma]? c.heap[ba]?

/-- Embedding of `Calibrator::calibrate` (`calibrator.h` lines 66–103),
returning the result value paired with the state after the call (the method
writes no member, so every `return` statement leaves the state it received):
the guard on `_m` and `_b`, the below-range and above-range checks, the
segment scan, and the last-resort fallback returning the raw input. -/
def calibrateModel (c : CalState) (x : ℚ) : Option (ℚ × CalState) :=
  calGuard c x c.mPtr c.bPtr

/-- Result value of `calibrate`, discarding the (unchanged) state. -/
def calibrateVal (c : CalState) (x : ℚ) : Option ℚ :=
  (calibrateModel c x).map Prod.fst

/-- Slope `m[i]` of segment `i` as computed by the fitting loop. -/
def segSlope (raw cal : List ℚ) (i : Nat) : ℚ :=
  ((cal[i + 1]?).getD 0 - (cal[i]?).getD 0) / ((raw[i + 1]?).getD 0 - (raw[i]?).getD 0)

/-- Intercept `b[i]` of segment `i` as computed by the fitting loop. -/
def segIcept (raw cal : List ℚ) (i : Nat) : ℚ :=
  (cal[i]?).getD 0 - segSlope raw cal i * (raw[i]?).getD 0

/-- Contents of the `_m` array after a successful `begin` on an `n+1`-point
table: the `n` segment slopes. -/
def segSlopes (raw cal : List ℚ) (n : Nat) : List ℚ :=
  (List.range n).map (segSlope raw cal)

/-- Contents of the `_b` array after a successful `begin` on an `n+1`-point
table: the `n` segment intercepts. -/
def segIcepts (raw cal : List ℚ) (n : Nat) : List ℚ :=
  (List.range n).map (segIcept raw cal)

/-- State of the calibrator after one successful `begin` following
construction: the two coefficient blocks are the only allocations, at heap
addresses 0 and 1. -/
def fittedState (raw cal : List ℚ) (numPoints : Nat) (limit : Bool) : CalState :=
  { rawValues := raw
    calibrationValues := cal
    numPoints := numPoints
    mPtr := Ptr.addr 0
    bPtr := Ptr.addr 1
    limitOutput := limit
    heap := [segSlopes raw cal (numPoints - 1), segIcepts raw cal (numPoints - 1)] }

/-- Raw values sorted in non-decreasing order (what the `begin` loop checks). -/
def sortedRaw (raw : List ℚ) : Prop :=
  ∀ j, j + 1 < raw.length → (raw[j]?).getD 0 ≤ (raw[j + 1]?).getD 0

/-- Raw values strictly increasing (no zero-width segment). -/
def strictRaw (raw : List ℚ) : Prop :=
  ∀ j, j + 1 < raw.length → (raw[j]?).getD 0 < (raw[j + 1]?).getD 0

/-- Number of heap blocks no longer referenced by either member pointer:
allocations that can never be released again. -/
def leakCount (c : CalState) : Nat :=
  (List.range c.heap.length).countP
    (fun i => !(decide (c.mPtr = Ptr.addr i) || decide (c.bPtr = Ptr.addr i)))

/-- Numeric value of the `uint32_t` modulus. -/
theorem u32_eq : u32 = 4294967296 := by norm_num [u32]

/-- Unsigned subtraction agrees with truncated subtraction when no underflow
occurs. -/
theorem usub_eq_sub (a b : Nat) (hb : b ≤ a) (ha : a < u32) : usub a b = a - b := by
  rw [u32_eq] at ha
  simp only [usub, u32_eq]
  omega

/-- The loop bound `_numPoints - 1` wraps around to `2^32 - 1` on the empty
table. -/
theorem usub_zero_one : usub 0 1 = 4294967295 := by
  simp only [usub, u32_eq]

attribute [irreducible] usub

/-- In-bounds lookups succeed with their default-completed value. -/
theorem getq_eq (l : List ℚ) (i : Nat) (h : i < l.length) :
    l[i]? = some ((l[i]?).getD 0) := by
  rw [List.getElem?_eq_getElem h]
  rfl

/-- One step of the sortedness loop. -/
theorem checkSortedFrom_succ (raw : List ℚ) (i k : Nat) :
    checkSortedFrom raw i (k + 1) =
      match raw[i]?, raw[i + 1]? with
      | some a, some b => if a > b then some false else checkSortedFrom raw (i + 1) k
      | _, _ => none := rfl

/-- The sortedness loop stops with undefined behaviour as soon as its first
read is out of bounds. -/
theorem checkSortedFrom_oob (raw : List ℚ) (i k : Nat) (h : raw[i]? = none) :
    checkSortedFrom raw i (k + 1) = none := by
  rw [checkSortedFrom_succ, h]

/-- One step of the fitting loop. -/
theorem coeffsFrom_succ (raw cal : List ℚ) (i k : Nat) :
    coeffsFrom raw cal i (k + 1) =
      match cal[i]?, cal[i + 1]?, raw[i]?, raw[i + 1]? with
      | some c0, some c1, some r0, some r1 =>
        match coeffsFrom raw cal (i + 1) k with
        | some (ms, bs) =>
            some (((c1 - c0) / (r1 - r0)) :: ms,
                  (c0 - ((c1 - c0) / (r1 - r0)) * r0) :: bs)
        | none => none
      | _, _, _, _ => none := rfl

/-- One step of the segment scan. -/
theorem scanSeg_succ (raw ms bs : List ℚ) (x : ℚ) (i k : Nat) :
    scanSeg raw ms bs x i (k + 1) =
      match raw[i]?, raw[i + 1]? with
      | some r0, some r1 =>
        if r0 ≤ x ∧ x ≤ r1 then
          match ms[i]?, bs[i]? with
          | some mi, some bi => some (some (mi * x + bi))
          | _, _ => none
        else scanSeg raw ms bs x (i + 1) k
      | _, _ => none := rfl

/-- The sortedness loop accepts every window of a non-decreasing table. -/
theorem checkSortedFrom_eq_true (raw : List ℚ) (hs : sortedRaw raw) :
    ∀ k i, i + k + 1 ≤ raw.length → checkSortedFrom raw i k = some true := by
  intro k
  induction k with
  | zero => intro i _; rfl
  | succ k ih =>
    intro i hk
    have hi : i < raw.length := by omega
    have hi1 : i + 1 < raw.length := by omega
    rw [checkSortedFrom_succ, getq_eq raw i hi, getq_eq raw (i + 1) hi1]
    have hle := hs i hi1
    simp only [gt_iff_lt, not_lt.mpr hle, if_false]
    exact ih (i + 1) (by omega)

/-- The sortedness loop rejects any window holding an inversion. -/
theorem checkSortedFrom_eq_false (raw : List ℚ) :
    ∀ k i j, i + k + 1 ≤ raw.length → i ≤ j → j + 1 ≤ i + k →
      (raw[j + 1]?).getD 0 < (raw[j]?).getD 0 →
      checkSortedFrom raw i k = some false := by
  intro k
  induction k with
  | zero => intro i j _ hij hjk _; omega
  | succ k ih =>
    intro i j hk hij hjk hinv
    have hi : i < raw.length := by omega
    have hi1 : i + 1 < raw.length := by omega
    rw [checkSortedFrom_succ, getq_eq raw i hi, getq_eq raw (i + 1) hi1]
    by_cases hcmp : (raw[i + 1]?).getD 0 < (raw[i]?).getD 0
    · simp only [gt_iff_lt, hcmp, if_true]
    · simp only [gt_iff_lt, hcmp, if_false]
      have hne : i ≠ j := by
        intro h
        exact hcmp (h ▸ hinv)
      exact ih (i + 1) j (by omega) (by omega) (by omega) hinv

/-- The fitting loop succeeds on any in-bounds window and stores exactly the
slopes and intercepts of its segments. -/
theorem coeffsFrom_eq (raw cal : List ℚ) :
    ∀ k i, i + k + 1 ≤ raw.length → i + k + 1 ≤ cal.length →
      coeffsFrom raw cal i k =
        some ((List.range k).map (fun j => segSlope raw cal (i + j)),
              (List.range k).map (fun j => segIcept raw cal (i + j))) := by
  intro k
  induction k with
  | zero => intro i _ _; simp [coeffsFrom]
  | succ k ih =>
    intro i hr hc
    rw [coeffsFrom_succ,
      getq_eq cal i (by omega), getq_eq cal (i + 1) (by omega),
      getq_eq raw i (by omega), getq_eq raw (i + 1) (by omega),
      ih (i + 1) (by omega) (by omega)]
    have hkey : ∀ f : Nat → ℚ,
        List.map (fun j => f (i + j)) (List.range (k + 1)) =
          f i :: List.map (fun j => f (i + 1 + j)) (List.range k) := by
      intro f
      have hfun : ((fun j => f (i + j)) ∘ Nat.succ) = fun j => f (i + 1 + j) := by
        funext j
        simp only [Function.comp_apply]
        congr 1
        omega
      rw [List.range_succ_eq_map, List.map_cons, List.map_map, hfun, Nat.add_zero]
    rw [hkey (segSlope raw cal), hkey (segIcept raw cal)]
    simp only [segSlope, segIcept]

/-- Length of the stored slope array. -/
theorem segSlopes_length (raw cal : List ℚ) (n : Nat) :
    (segSlopes raw cal n).length = n := by
  simp [segSlopes]

/-- Length of the stored intercept array. -/
theorem segIcepts_length (raw cal : List ℚ) (n : Nat) :
    (segIcepts raw cal n).length = n := by
  simp [segIcepts]

/-- Entries of the stored slope array. -/
theorem segSlopes_get (raw cal : List ℚ) (n i : Nat) (h : i < n) :
    (segSlopes raw cal n)[i]? = some (segSlope raw cal i) := by
  simp [segSlopes, List.getElem?_map, List.getElem?_range h]

/-- Entries of the stored intercept array. -/
theorem segIcepts_get (raw cal : List ℚ) (n i : Nat) (h : i < n) :
    (segIcepts raw cal n)[i]? = some (segIcept raw cal i) := by
  simp [segIcepts, List.getElem?_map, List.getElem?_range h]

/-- A segment's fitted line passes through its left table point (this is how
the intercept is defined, so it holds even for a zero-width segment). -/
theorem segLine_left (raw cal : List ℚ) (i : Nat) :
    segSlope raw cal i * (raw[i]?).getD 0 + segIcept raw cal i = (cal[i]?).getD 0 := by
  simp [segIcept]

/-- A segment's fitted line passes through its right table point, provided
the segment has nonzero width (otherwise the slope computation divides by
zero). -/
theorem segLine_right (raw cal : List ℚ) (i : Nat)
    (h : (raw[i]?).getD 0 ≠ (raw[i + 1]?).getD 0) :
    segSlope raw cal i * (raw[i + 1]?).getD 0 + segIcept raw cal i = (cal[i + 1]?).getD 0 := by
  have hne : (raw[i + 1]?).getD 0 - (raw[i]?).getD 0 ≠ 0 :=
    sub_ne_zero.mpr (Ne.symm h)
  rw [segIcept, segSlope]
  field_simp
  ring

/-- Non-decreasing tables are monotone between any two in-bounds indices. -/
theorem sortedRaw_mono (raw : List ℚ) (hs : sortedRaw raw) :
    ∀ b a, a ≤ b → b < raw.length → (raw[a]?).getD 0 ≤ (raw[b]?).getD 0 := by
  intro b
  induction b with
  | zero =>
    intro a ha _
    have : a = 0 := by omega
    simp [this]
  | succ n ih =>
    intro a ha hb
    rcases Nat.lt_or_ge a (n + 1) with hlt | hge
    · exact le_trans (ih a (by omega) (by omega)) (hs n hb)
    · have : a = n + 1 := by omega
      simp [this]

/-- Strictly increasing tables are strictly monotone between in-bounds
indices. -/
theorem strictRaw_mono (raw : List ℚ) (hs : strictRaw raw) :
    ∀ b a, a < b → b < raw.length → (raw[a]?).getD 0 < (raw[b]?).getD 0 := by
  intro b
  induction b with
  | zero => intro a ha _; omega
  | succ n ih =>
    intro a ha hb
    rcases Nat.lt_or_ge a n with hlt | hge
    · exact lt_trans (ih a (by omega) (by omega)) (hs n hb)
    · have : a = n := by omega
      subst this
      exact hs a hb

/-- Strict increase implies the non-decrease the validation loop checks. -/
theorem strictRaw_sorted (raw : List ℚ) (hs : strictRaw raw) : sortedRaw raw :=
  fun j hj => le_of_lt (hs j hj)

/-- The segment scan finds a matching segment whenever the input lies in the
span of its window; no sortedness is needed for mere existence. -/
theorem scanSeg_finds (raw ms bs : List ℚ) (x : ℚ) :
    ∀ k i, 1 ≤ k → i + k < raw.length → i + k ≤ ms.length → i + k ≤ bs.length →
      (raw[i]?).getD 0 ≤ x → x ≤ (raw[i + k]?).getD 0 →
      ∃ v, scanSeg raw ms bs x i k = some (some v) := by
  intro k
  induction k with
  | zero => intro i h1 _ _ _ _ _; omega
  | succ k ih =>
    intro i _ hraw hms hbs h0 h1
    have hi : i < raw.length := by omega
    have hi1 : i + 1 < raw.length := by omega
    rw [scanSeg_succ, getq_eq raw i hi, getq_eq raw (i + 1) hi1]
    by_cases hin : (raw[i]?).getD 0 ≤ x ∧ x ≤ (raw[i + 1]?).getD 0
    · rw [getq_eq ms i (by omega), getq_eq bs i (by omega)]
      simp only [hin, if_true]
      exact ⟨_, rfl⟩
    · have hgt : (raw[i + 1]?).getD 0 < x := by
        rcases not_and_or.mp hin with h | h
        · exact absurd h0 h
        · exact lt_of_not_le h
      have hk1 : 1 ≤ k := by
        by_contra hk0
        have : k = 0 := by omega
        subst this
        exact absurd h1 (not_le.mpr hgt)
      simp only [hin, if_false]
      exact ih (i + 1) hk1 (by omega) (by omega) (by omega) (le_of_lt hgt)
        (by have : i + 1 + k = i + (k + 1) := by omega
            rw [this]; exact h1)

/-- Any value produced by the segment scan comes from the first matching
segment: some segment index in the window matches the input and the value is
that segment's line applied to the input. -/
theorem scanSeg_value (raw ms bs : List ℚ) (x : ℚ) :
    ∀ k i v, scanSeg raw ms bs x i k = some (some v) →
      ∃ t, i ≤ t ∧ t + 1 ≤ i + k ∧
        (raw[t]?).getD 0 ≤ x ∧ x ≤ (raw[t + 1]?).getD 0 ∧
        v = (ms[t]?).getD 0 * x + (bs[t]?).getD 0 := by
  intro k
  induction k with
  | zero => intro i v h; simp [scanSeg] at h
  | succ k ih =>
    intro i v h
    rw [scanSeg_succ] at h
    split at h
    · rename_i r0 r1 hr0 hr1
      split at h
      · rename_i hin
        split at h
        · rename_i mi bi hm hb
          simp only [Option.some.injEq] at h
          refine ⟨i, le_refl i, by omega, ?_, ?_, ?_⟩
          · rw [hr0]; exact hin.1
          · rw [hr1]; exact hin.2
          · rw [hm, hb]
            simpa using h.symm
        · cases h
      · obtain ⟨t, ht1, ht2, ht3, ht4, ht5⟩ := ih (i + 1) v h
        exact ⟨t, by omega, by omega, ht3, ht4, ht5⟩
    · cases h

/-- Successful run of `begin` on any state holding a valid table: the loop
bound does not wrap, validation passes, and two fresh blocks holding the
segment slopes and intercepts are appended to the heap, with `_m` and `_b`
repointed at them.  Nothing is ever freed. -/
theorem beginModel_success (c : CalState)
    (hr : c.rawValues.length = c.numPoints)
    (hc : c.calibrationValues.length = c.numPoints)
    (hN : 2 ≤ c.numPoints) (hu : c.numPoints < u32)
    (hs : sortedRaw c.rawValues) :
    beginModel c = some (true,
      { c with
        mPtr := Ptr.addr c.heap.length
        bPtr := Ptr.addr (c.heap.length + 1)
        heap := c.heap ++
          [segSlopes c.rawValues c.calibrationValues (c.numPoints - 1),
           segIcepts c.rawValues c.calibrationValues (c.numPoints - 1)] }) := by
  have hus : usub c.numPoints 1 = c.numPoints - 1 := usub_eq_sub _ _ (by omega) hu
  have h1 : checkSortedFrom c.rawValues 0 (c.numPoints - 1) = some true :=
    checkSortedFrom_eq_true c.rawValues hs (c.numPoints - 1) 0 (by omega)
  have h2 : coeffsFrom c.rawValues c.calibrationValues 0 (c.numPoints - 1) =
      some (segSlopes c.rawValues c.calibrationValues (c.numPoints - 1),
            segIcepts c.rawValues c.calibrationValues (c.numPoints - 1)) := by
    rw [coeffsFrom_eq c.rawValues c.calibrationValues (c.numPoints - 1) 0
      (by omega) (by omega)]
    simp [segSlopes, segIcepts]
  have h3 : ¬ (c.numPoints ≤ 1) := by omega
  rw [beginModel, hus, h1]
  simp only [beginCheck]
  rw [if_neg h3, hus, h2]
  simp only [beginFit]

/-- Successful `begin` directly after construction: the fitted state has
exactly the two coefficient blocks at heap addresses 0 and 1. -/
theorem beginModel_mk (raw cal : List ℚ) (N : Nat) (limit : Bool)
    (hr : raw.length = N) (hc : cal.length = N) (hN : 2 ≤ N) (hu : N < u32)
    (hs : sortedRaw raw) :
    beginModel (mkCalibrator raw cal N limit) = some (true, fittedState raw cal N limit) := by
  rw [beginModel_success (mkCalibrator raw cal N limit) hr hc hN hu hs]
  rfl

/-- Evaluation of `calibrate` on a fitted calibrator, reduced to the source's
branch structure: below-range check, above-range check, then the segment scan
with the last-resort fallback. -/
theorem calibrateModel_fitted (raw cal : List ℚ) (N : Nat) (limit : Bool) (x : ℚ)
    (hu : N < u32) (hN : 2 ≤ N)
    (r0 rL : ℚ) (hr0 : raw[0]? = some r0) (hrL : raw[N - 1]? = some rL) :
    calibrateModel (fittedState raw cal N limit) x =
      if x < r0 then
        if limit then calClampVal (fittedState raw cal N limit) cal[0]?
        else calLine (fittedState raw cal N limit) x
          (segSlopes raw cal (N - 1))[0]? (segIcepts raw cal (N - 1))[0]?
      else if x > rL then
        if limit then calClampVal (fittedState raw cal N limit) cal[N - 1]?
        else calLine (fittedState raw cal N limit) x
          (segSlopes raw cal (N - 1))[N - 2]? (segIcepts raw cal (N - 1))[N - 2]?
      else calScan (fittedState raw cal N limit) x
        (scanSeg raw (segSlopes raw cal (N - 1)) (segIcepts raw cal (N - 1)) x 0 (N - 1)) := by
  have h1 : usub N 1 = N - 1 := usub_eq_sub N 1 (by omega) hu
  have h2 : usub N 2 = N - 2 := usub_eq_sub N 2 (by omega) hu
  have hp1 : (fittedState raw cal N limit).mPtr = Ptr.addr 0 := rfl
  have hp2 : (fittedState raw cal N limit).bPtr = Ptr.addr 1 := rfl
  have hh0 : (fittedState raw cal N limit).heap[0]? = some (segSlopes raw cal (N - 1)) := rfl
  have hh1 : (fittedState raw cal N limit).heap[1]? = some (segIcepts raw cal (N - 1)) := rfl
  have hraw : (fittedState raw cal N limit).rawValues = raw := rfl
  have hcal : (fittedState raw cal N limit).calibrationValues = cal := rfl
  have hnum : (fittedState raw cal N limit).numPoints = N := rfl
  have hlim : (fittedState raw cal N limit).limitOutput = limit := rfl
  rw [calibrateModel, hp1, hp2]
  simp only [calGuard]
  rw [hh0, hh1]
  simp only [calArrays]
  rw [hraw, hr0]
  simp only [calBelow]
  rw [hnum, h1, hraw, hrL, hcal, hlim]
  simp only [calAbove]
  rw [hnum, h1, h2, hcal, hlim]
  simp only [calInRange]
  rw [hraw, hnum, h1]

/-- Clamped returns leave the state unchanged. -/
theorem calClampVal_state (c : CalState) (o : Option ℚ) (v : ℚ) (c₂ : CalState)
    (h : calClampVal c o = some (v, c₂)) : c₂ = c := by
  cases o with
  | none => cases h
  | some a =>
    simp only [calClampVal, Option.some.injEq, Prod.mk.injEq] at h
    exact h.2.symm

/-- Linear-model returns leave the state unchanged. -/
theorem calLine_state (c : CalState) (x : ℚ) (o₁ o₂ : Option ℚ) (v : ℚ) (c₂ : CalState)
    (h : calLine c x o₁ o₂ = some (v, c₂)) : c₂ = c := by
  cases o₁ with
  | none => cases h
  | some m =>
    cases o₂ with
    | none => cases h
    | some b =>
      simp only [calLine, Option.some.injEq, Prod.mk.injEq] at h
      exact h.2.symm

/-- Scan-outcome returns leave the state unchanged. -/
theorem calScan_state (c : CalState) (x : ℚ) (o : Option (Option ℚ)) (v : ℚ) (c₂ : CalState)
    (h : calScan c x o = some (v, c₂)) : c₂ = c := by
  cases o with
  | none => cases h
  | some oo =>
    cases oo with
    | none =>
      simp only [calScan, Option.some.injEq, Prod.mk.injEq] at h
      exact h.2.symm
    | some w =>
      simp only [calScan, Option.some.injEq, Prod.mk.injEq] at h
      exact h.2.symm

/-- The in-range branch leaves the state unchanged. -/
theorem calInRange_state (c : CalState) (x : ℚ) (ms bs : List ℚ) (v : ℚ) (c₂ : CalState)
    (h : calInRange c x ms bs = some (v, c₂)) : c₂ = c := by
  rw [calInRange] at h
  exact calScan_state c x _ v c₂ h

/-- The above-range branch leaves the state unchanged. -/
theorem calAbove_state (c : CalState) (x : ℚ) (ms bs : List ℚ) (o : Option ℚ) (v : ℚ)
    (c₂ : CalState) (h : calAbove c x ms bs o = some (v, c₂)) : c₂ = c := by
  cases o with
  | none => cases h
  | some rLast =>
    simp only [calAbove] at h
    split_ifs at h with h1 h2
    · exact calClampVal_state c _ v c₂ h
    · exact calLine_state c x _ _ v c₂ h
    · exact calInRange_state c x ms bs v c₂ h

/-- The below-range branch leaves the state unchanged. -/
theorem calBelow_state (c : CalState) (x : ℚ) (ms bs : List ℚ) (o : Option ℚ) (v : ℚ)
    (c₂ : CalState) (h : calBelow c x ms bs o = some (v, c₂)) : c₂ = c := by
  cases o with
  | none => cases h
  | some r0 =>
    simp only [calBelow] at h
    split_ifs at h with h1 h2
    · exact calClampVal_state c _ v c₂ h
    · exact calLine_state c x _ _ v c₂ h
    · exact calAbove_state c x ms bs _ v c₂ h

/-- Array dereferencing leaves the state unchanged. -/
theorem calArrays_state (c : CalState) (x : ℚ) (o₁ o₂ : Option (List ℚ)) (v : ℚ)
    (c₂ : CalState) (h : calArrays c x o₁ o₂ = some (v, c₂)) : c₂ = c := by
  cases o₁ with
  | none => cases h
  | some ms =>
    cases o₂ with
    | none => cases h
    | some bs => exact calBelow_state c x ms bs _ v c₂ h

/-- The guard leaves the state unchanged. -/
theorem calGuard_state (c : CalState) (x : ℚ) (p₁ p₂ : Ptr) (v : ℚ) (c₂ : CalState)
    (h : calGuard c x p₁ p₂ = some (v, c₂)) : c₂ = c := by
  cases p₁ with
  | undef => cases p₂ <;> cases h
  | addr ma =>
    cases p₂ with
    | undef => cases h
    | addr ba => exact calArrays_state c x _ _ v c₂ h

/-- A whole `calibrate` call leaves the state unchanged. -/
theorem calibrateModel_state (c : CalState) (x : ℚ) (v : ℚ) (c₂ : CalState)
    (h : calibrateModel c x = some (v, c₂)) : c₂ = c := by
  rw [calibrateModel] at h
  exact calGuard_state c x c.mPtr c.bPtr v c₂ h

/-- A `begin` call preserves the borrowed sequences, the count and the flag,
and only ever appends to the heap. -/
theorem beginModel_frame (c : CalState) (r : Bool) (c' : CalState)
    (h : beginModel c = some (r, c')) :
    c'.rawValues = c.rawValues ∧ c'.calibrationValues = c.calibrationValues ∧
      c'.numPoints = c.numPoints ∧ c'.limitOutput = c.limitOutput ∧
      ∃ tail, c'.heap = c.heap ++ tail := by
  rw [beginModel] at h
  cases hcs : checkSortedFrom c.rawValues 0 (usub c.numPoints 1) with
  | none => rw [hcs] at h; cases h
  | some sorted =>
    rw [hcs] at h
    cases sorted with
    | false =>
      simp only [beginCheck, Option.some.injEq, Prod.mk.injEq] at h
      rw [← h.2]
      exact ⟨rfl, rfl, rfl, rfl, [], by simp⟩
    | true =>
      simp only [beginCheck] at h
      split_ifs at h with h1
      · simp only [Option.some.injEq, Prod.mk.injEq] at h
        rw [← h.2]
        exact ⟨rfl, rfl, rfl, rfl, [], by simp⟩
      · cases hcf : coeffsFrom c.rawValues c.calibrationValues 0 (usub c.numPoints 1) with
        | none => rw [hcf] at h; cases h
        | some p =>
          rw [hcf] at h
          obtain ⟨ms, bs⟩ := p
          simp only [beginFit, Option.some.injEq, Prod.mk.injEq] at h
          rw [← h.2]
          exact ⟨rfl, rfl, rfl, rfl, [ms, bs], rfl⟩

/-- A table holding an inversion is rejected by the sortedness loop, leaving
the state untouched. -/
theorem beginModel_inversion (c : CalState) (i : Nat)
    (hr : c.rawValues.length = c.numPoints) (hu : c.numPoints < u32)
    (hi : i + 1 < c.numPoints)
    (hinv : (c.rawValues[i + 1]?).getD 0 < (c.rawValues[i]?).getD 0) :
    beginModel c = some (false, c) := by
  have hus : usub c.numPoints 1 = c.numPoints - 1 := usub_eq_sub _ _ (by omega) hu
  have hfalse : checkSortedFrom c.rawValues 0 (c.numPoints - 1) = some false :=
    checkSortedFrom_eq_false c.rawValues (c.numPoints - 1) 0 i (by omega) (by omega)
      (by omega) hinv
  rw [beginModel, hus, hfalse]
  rfl

/-- C2: the claim says a never-successfully-fitted calibrator performs an
identity passthrough.  On the code this fails: the constructor never
initialises `_m` and `_b`, so the `_m == nullptr` guard reads indeterminate
pointers — undefined behaviour (`none` in the model), not a guaranteed
identity — both directly after construction and after a failed `begin`. -/
theorem claim_C2 :
    calibrateModel (mkCalibrator [10, 20] [1, 2] 2 true) 5 = none ∧
    beginModel (mkCalibrator [1, 0] [5, 6] 2 true) = some (false, mkCalibrator [1, 0] [5, 6] 2 true) ∧
    calibrateModel (mkCalibrator [1, 0] [5, 6] 2 true) 5 = none := by
  refine ⟨?_, ?_, ?_⟩
  · have hm : (mkCalibrator [10, 20] [1, 2] 2 true).mPtr = Ptr.undef := rfl
    rw [calibrateModel, hm]
    rfl
  · exact beginModel_inversion (mkCalibrator [1, 0] [5, 6] 2 true) 0 rfl
      (by norm_num [mkCalibrator, u32]) (by norm_num [mkCalibrator]) (by norm_num [mkCalibrator])
  · have hm : (mkCalibrator [1, 0] [5, 6] 2 true).mPtr = Ptr.undef := rfl
    rw [calibrateModel, hm]
    rfl

/-- C3: the claim says `begin()` returns false for every `N ≤ 1` without
reading outside the sequences.  For `N = 1` this holds (first conjunct).  For
`N = 0` the `uint32_t` loop bound `_numPoints - 1` wraps to `2^32 - 1`, so the
sortedness loop reads `_rawValues[0]` out of bounds before the `N <= 1` check
is ever reached — undefined behaviour (`none`), refuting the claim at `N = 0`
(second conjunct). -/
theorem claim_C3 :
    beginModel (mkCalibrator [5] [7] 1 false) = some (false, mkCalibrator [5] [7] 1 false) ∧
    beginModel (mkCalibrator [] [] 0 false) = none := by
  constructor
  · have hnum : (mkCalibrator [5] [7] 1 false).numPoints = 1 := rfl
    have hus : usub 1 1 = 0 := by rw [usub_eq_sub 1 1 (le_refl 1) (by norm_num [u32])]
    have hcs : checkSortedFrom (mkCalibrator [5] [7] 1 false).rawValues 0 0 = some true := rfl
    rw [beginModel, hnum, hus, hcs]
    simp only [beginCheck]
    rw [if_pos (by norm_num [mkCalibrator])]
  · have hnum : (mkCalibrator [] [] 0 false).numPoints = 0 := rfl
    have hraw : (mkCalibrator [] [] 0 false).rawValues = ([] : List ℚ) := rfl
    rw [beginModel, hnum, hraw, usub_zero_one,
      show (4294967295 : Nat) = 4294967294 + 1 from rfl,
      checkSortedFrom_oob ([] : List ℚ) 0 4294967294 rfl]
    rfl

/-- C4: any inversion `raw[i] > raw[i+1]` in the table makes `begin` return
false, leaving the state unchanged; equivalently `begin` succeeds only on
tables whose adjacent pairs are all non-decreasing. -/
theorem claim_C4 (raw cal : List ℚ) (N : Nat) (limit : Bool) (i : Nat)
    (hr : raw.length = N) (hu : N < u32) (hi : i + 1 < N)
    (hinv : (raw[i + 1]?).getD 0 < (raw[i]?).getD 0) :
    beginModel (mkCalibrator raw cal N limit) = some (false, mkCalibrator raw cal N limit) :=
  beginModel_inversion (mkCalibrator raw cal N limit) i hr hu hi hinv

/-- Witness for C4 at the concrete inverted table `raw = [1, 0]`. -/
theorem claim_C4_witness :
    beginModel (mkCalibrator [1, 0] [5, 6] 2 false) =
      some (false, mkCalibrator [1, 0] [5, 6] 2 false) :=
  claim_C4 [1, 0] [5, 6] 2 false 0 rfl (by norm_num [u32]) (by norm_num) (by norm_num)

/-- C7: a table with equal adjacent raw values passes `begin`'s validation
(the loop only rejects strict inversions), `begin` returns true, and the
slope stored for that segment is the division whose denominator
`raw[i+1] - raw[i]` equals zero — performed unguarded. -/
theorem claim_C7 (raw cal : List ℚ) (N : Nat) (limit : Bool) (i : Nat)
    (hr : raw.length = N) (hc : cal.length = N) (hN : 2 ≤ N) (hu : N < u32)
    (hs : sortedRaw raw) (hi : i + 1 < N)
    (htie : (raw[i + 1]?).getD 0 = (raw[i]?).getD 0) :
    beginModel (mkCalibrator raw cal N limit) = some (true, fittedState raw cal N limit) ∧
    (raw[i + 1]?).getD 0 - (raw[i]?).getD 0 = 0 ∧
    (segSlopes raw cal (N - 1))[i]? =
      some (((cal[i + 1]?).getD 0 - (cal[i]?).getD 0) /
        ((raw[i + 1]?).getD 0 - (raw[i]?).getD 0)) := by
  refine ⟨beginModel_mk raw cal N limit hr hc hN hu hs, sub_eq_zero.mpr htie, ?_⟩
  rw [segSlopes_get raw cal (N - 1) i (by omega)]
  rfl

/-- Witness for C7 at the tied table `raw = [0, 0]`, `cal = [1, 2]`. -/
theorem claim_C7_witness :
    beginModel (mkCalibrator [0, 0] [1, 2] 2 false) =
      some (true, fittedState [0, 0] [1, 2] 2 false) ∧
    (([0, 0] : List ℚ)[0 + 1]?).getD 0 - (([0, 0] : List ℚ)[0]?).getD 0 = 0 ∧
    (segSlopes [0, 0] [1, 2] (2 - 1))[0]? =
      some (((([1, 2] : List ℚ)[0 + 1]?).getD 0 - (([1, 2] : List ℚ)[0]?).getD 0) /
        ((([0, 0] : List ℚ)[0 + 1]?).getD 0 - (([0, 0] : List ℚ)[0]?).getD 0)) :=
  claim_C7 [0, 0] [1, 2] 2 false 0 rfl rfl (by norm_num) (by norm_num [u32])
    (by
      intro j hj
      simp only [List.length_cons, List.length_nil] at hj
      have hj0 : j = 0 := by omega
      subst hj0
      norm_num)
    (by norm_num) (by norm_num)

/-- C9: the claim says a second `begin` succeeds with the same results and
does not leak the previously allocated storage.  The success part holds, but
the code runs `_m = new ...`, `_b = new ...` again without any `delete[]`:
after the second call four blocks have been allocated (`heap.length = 4`)
while only the last two are still referenced — `leakCount = 2`, where the
claim requires the prior allocations to be reused or released
(`leakCount = 0`, as after the first call). -/
theorem claim_C9 :
    (beginModel (mkCalibrator [0, 1] [0, 2] 2 false)).map
      (fun p => (p.1, leakCount p.2, p.2.heap.length)) = some (true, 0, 2) ∧
    ((beginModel (mkCalibrator [0, 1] [0, 2] 2 false)).bind (fun p => beginModel p.2)).map
      (fun p => (p.1, leakCount p.2, p.2.heap.length)) = some (true, 2, 4) := by
  have hs : sortedRaw [0, 1] := by
    intro j hj
    simp only [List.length_cons, List.length_nil] at hj
    have hj0 : j = 0 := by omega
    subst hj0
    norm_num
  constructor
  · rw [beginModel_success (mkCalibrator [0, 1] [0, 2] 2 false) rfl rfl
      (by norm_num [mkCalibrator]) (by norm_num [mkCalibrator, u32]) hs]
    rfl
  · rw [beginModel_success (mkCalibrator [0, 1] [0, 2] 2 false) rfl rfl
      (by norm_num [mkCalibrator]) (by norm_num [mkCalibrator, u32]) hs]
    simp only [Option.bind]
    rw [beginModel_success _ rfl rfl (by norm_num [mkCalibrator])
      (by norm_num [mkCalibrator, u32]) hs]
    rfl

/-- C10: `calibrate` returns leaving the whole calibrator state unchanged,
and `begin` never writes the borrowed raw or calibrated sequences, the count
or the flag — it only appends calibrator-owned blocks to the heap (the new
`_m` and `_b` arrays). -/
theorem claim_C10 :
    (∀ (c : CalState) (x v : ℚ) (c₂ : CalState),
        calibrateModel c x = some (v, c₂) → c₂ = c) ∧
    (∀ (c : CalState) (r : Bool) (c' : CalState), beginModel c = some (r, c') →
        c'.rawValues = c.rawValues ∧ c'.calibrationValues = c.calibrationValues ∧
        c'.numPoints = c.numPoints ∧ c'.limitOutput = c.limitOutput ∧
        ∃ tail, c'.heap = c.heap ++ tail) :=
  ⟨fun c x v c₂ h => calibrateModel_state c x v c₂ h,
   fun c r c' h => beginModel_frame c r c' h⟩

/-- Witness for C10: a concrete `calibrate` call that returns a value with
the state unchanged, and a concrete `begin` call whose result state keeps all
borrowed fields and extends the heap. -/
theorem claim_C10_witness :
    fittedState [0, 1] [0, 2] 2 false = fittedState [0, 1] [0, 2] 2 false ∧
    ((fittedState [0, 1] [0, 2] 2 false).rawValues =
        (mkCalibrator [0, 1] [0, 2] 2 false).rawValues ∧
      (fittedState [0, 1] [0, 2] 2 false).calibrationValues =
        (mkCalibrator [0, 1] [0, 2] 2 false).calibrationValues ∧
      (fittedState [0, 1] [0, 2] 2 false).numPoints =
        (mkCalibrator [0, 1] [0, 2] 2 false).numPoints ∧
      (fittedState [0, 1] [0, 2] 2 false).limitOutput =
        (mkCalibrator [0, 1] [0, 2] 2 false).limitOutput ∧
      ∃ tail, (fittedState [0, 1] [0, 2] 2 false).heap =
        (mkCalibrator [0, 1] [0, 2] 2 false).heap ++ tail) := by
  constructor
  · refine claim_C10.1 (fittedState [0, 1] [0, 2] 2 false) 5 10
      (fittedState [0, 1] [0, 2] 2 false) ?_
    rw [calibrateModel_fitted [0, 1] [0, 2] 2 false 5 (by norm_num [u32]) (by norm_num)
      0 1 rfl rfl]
    norm_num [calLine, segSlopes, segIcepts, segSlope, segIcept, List.range_succ]
  · refine claim_C10.2 (mkCalibrator [0, 1] [0, 2] 2 false) true
      (fittedState [0, 1] [0, 2] 2 false) ?_
    exact beginModel_mk [0, 1] [0, 2] 2 false rfl rfl (by norm_num) (by norm_num [u32])
      (by
        intro j hj
        simp only [List.length_cons, List.length_nil] at hj
        have hj0 : j = 0 := by omega
        subst hj0
        norm_num)

/-- Two-point tables with a non-decreasing pair are sorted. -/
theorem sortedRaw_pair (a b : ℚ) (hab : a ≤ b) : sortedRaw [a, b] := by
  intro j hj
  simp only [List.length_cons, List.length_nil] at hj
  have hj0 : j = 0 := by omega
  subst hj0
  simpa using hab

/-- Two-point tables with an increasing pair are strictly increasing. -/
theorem strictRaw_pair (a b : ℚ) (hab : a < b) : strictRaw [a, b] := by
  intro j hj
  simp only [List.length_cons, List.length_nil] at hj
  have hj0 : j = 0 := by omega
  subst hj0
  simpa using hab

/-- C5: on a fitted calibrator, an input below the first table point is
clamped to the first calibrated value when the limiting flag is set and is
otherwise extrapolated with segment 0's line; an input above the last table
point is clamped to the last calibrated value or extrapolated with segment
`N - 2`'s line. -/
theorem claim_C5 (raw cal : List ℚ) (N : Nat) (limit : Bool) (x : ℚ)
    (hr : raw.length = N) (hc : cal.length = N) (hN : 2 ≤ N) (hu : N < u32)
    (hs : sortedRaw raw) :
    beginModel (mkCalibrator raw cal N limit) = some (true, fittedState raw cal N limit) ∧
    (x < (raw[0]?).getD 0 →
      calibrateVal (fittedState raw cal N limit) x =
        some (if limit then (cal[0]?).getD 0
              else segSlope raw cal 0 * x + segIcept raw cal 0)) ∧
    ((raw[N - 1]?).getD 0 < x →
      calibrateVal (fittedState raw cal N limit) x =
        some (if limit then (cal[N - 1]?).getD 0
              else segSlope raw cal (N - 2) * x + segIcept raw cal (N - 2))) := by
  have e0 : raw[0]? = some ((raw[0]?).getD 0) := getq_eq raw 0 (by omega)
  have eL : raw[N - 1]? = some ((raw[N - 1]?).getD 0) := getq_eq raw (N - 1) (by omega)
  have ec0 : cal[0]? = some ((cal[0]?).getD 0) := getq_eq cal 0 (by omega)
  have ecL : cal[N - 1]? = some ((cal[N - 1]?).getD 0) := getq_eq cal (N - 1) (by omega)
  have em0 := segSlopes_get raw cal (N - 1) 0 (by omega)
  have eb0 := segIcepts_get raw cal (N - 1) 0 (by omega)
  have emL := segSlopes_get raw cal (N - 1) (N - 2) (by omega)
  have ebL := segIcepts_get raw cal (N - 1) (N - 2) (by omega)
  refine ⟨beginModel_mk raw cal N limit hr hc hN hu hs, ?_, ?_⟩
  · intro hx
    rw [calibrateVal, calibrateModel_fitted raw cal N limit x hu hN _ _ e0 eL, if_pos hx]
    cases limit
    · rw [if_neg (by simp), if_neg (by simp), em0, eb0]
      rfl
    · rw [if_pos rfl, if_pos rfl, ec0]
      rfl
  · intro hx
    have hr0L : (raw[0]?).getD 0 ≤ (raw[N - 1]?).getD 0 :=
      sortedRaw_mono raw hs (N - 1) 0 (by omega) (by omega)
    rw [calibrateVal, calibrateModel_fitted raw cal N limit x hu hN _ _ e0 eL,
      if_neg (not_lt.mpr (le_trans hr0L (le_of_lt hx))), if_pos hx]
    cases limit
    · rw [if_neg (by simp), if_neg (by simp), emL, ebL]
      rfl
    · rw [if_pos rfl, if_pos rfl, ecL]
      rfl

/-- Witness for C5 at the table `raw = [0, 2]`, `cal = [10, 30]`, with the
limiting flag unset. -/
theorem claim_C5_witness :
    beginModel (mkCalibrator [0, 2] [10, 30] 2 false) =
      some (true, fittedState [0, 2] [10, 30] 2 false) ∧
    ((5 : ℚ) < (([0, 2] : List ℚ)[0]?).getD 0 →
      calibrateVal (fittedState [0, 2] [10, 30] 2 false) 5 =
        some (if false then (([10, 30] : List ℚ)[0]?).getD 0
              else segSlope [0, 2] [10, 30] 0 * 5 + segIcept [0, 2] [10, 30] 0)) ∧
    ((([0, 2] : List ℚ)[2 - 1]?).getD 0 < (5 : ℚ) →
      calibrateVal (fittedState [0, 2] [10, 30] 2 false) 5 =
        some (if false then (([10, 30] : List ℚ)[2 - 1]?).getD 0
              else segSlope [0, 2] [10, 30] (2 - 2) * 5 + segIcept [0, 2] [10, 30] (2 - 2))) :=
  claim_C5 [0, 2] [10, 30] 2 false 5 rfl rfl (by norm_num) (by norm_num [u32])
    (sortedRaw_pair 0 2 (by norm_num))

/-- C8: on a fitted calibrator over a sorted table, every input inside
`[raw[0], raw[N-1]]` is matched by some segment in the scan, and `calibrate`
returns that segment's value — the no-match last-resort fallback is never
taken for in-range inputs. -/
theorem claim_C8 (raw cal : List ℚ) (N : Nat) (limit : Bool) (x : ℚ)
    (hr : raw.length = N) (hc : cal.length = N) (hN : 2 ≤ N) (hu : N < u32)
    (hs : sortedRaw raw)
    (hx0 : (raw[0]?).getD 0 ≤ x) (hxL : x ≤ (raw[N - 1]?).getD 0) :
    ∃ v, scanSeg raw (segSlopes raw cal (N - 1)) (segIcepts raw cal (N - 1)) x 0 (N - 1) =
        some (some v) ∧
      calibrateModel (fittedState raw cal N limit) x =
        some (v, fittedState raw cal N limit) := by
  have e0 : raw[0]? = some ((raw[0]?).getD 0) := getq_eq raw 0 (by omega)
  have eL : raw[N - 1]? = some ((raw[N - 1]?).getD 0) := getq_eq raw (N - 1) (by omega)
  obtain ⟨v, hv⟩ := scanSeg_finds raw (segSlopes raw cal (N - 1)) (segIcepts raw cal (N - 1))
    x (N - 1) 0 (by omega) (by omega) (by rw [segSlopes_length]; omega)
    (by rw [segIcepts_length]; omega) hx0 (by rw [Nat.zero_add]; exact hxL)
  refine ⟨v, hv, ?_⟩
  rw [calibrateModel_fitted raw cal N limit x hu hN _ _ e0 eL,
    if_neg (not_lt.mpr hx0), if_neg (not_lt.mpr hxL), hv]
  rfl

/-- Witness for C8 at the table `raw = [0, 2]`, `cal = [10, 30]` with the
in-range input `x = 1`. -/
theorem claim_C8_witness :
    ∃ v, scanSeg [0, 2] (segSlopes [0, 2] [10, 30] (2 - 1)) (segIcepts [0, 2] [10, 30] (2 - 1))
        1 0 (2 - 1) = some (some v) ∧
      calibrateModel (fittedState [0, 2] [10, 30] 2 true) 1 =
        some (v, fittedState [0, 2] [10, 30] 2 true) :=
  claim_C8 [0, 2] [10, 30] 2 true 1 rfl rfl (by norm_num) (by norm_num [u32])
    (sortedRaw_pair 0 2 (by norm_num)) (by norm_num) (by norm_num)

/-- C1 fails as stated: validity only requires non-decreasing raw values, so
the tied table `raw = [0, 0]`, `cal = [1, 2]` passes `begin` (which returns
true), yet `calibrate(raw[1])` does not return `calibrated[1] = 2` — the
zero-width segment's fit cannot pass through both distinct calibrated values
of the tie (in the C++ the slope is a division by zero; under any value of
that division the scan returns segment 0's value at `raw[1] = 0`, which
cannot equal both 1 and 2). -/
theorem claim_C1_counterexample :
    beginModel (mkCalibrator [0, 0] [1, 2] 2 false) =
      some (true, fittedState [0, 0] [1, 2] 2 false) ∧
    calibrateVal (fittedState [0, 0] [1, 2] 2 false) ((([0, 0] : List ℚ)[1]?).getD 0) ≠
      some ((([1, 2] : List ℚ)[1]?).getD 0) := by
  constructor
  · exact beginModel_mk [0, 0] [1, 2] 2 false rfl rfl (by norm_num) (by norm_num [u32])
      (sortedRaw_pair 0 0 le_rfl)
  · have heval : calibrateVal (fittedState [0, 0] [1, 2] 2 false) 0 = some 1 := by
      rw [calibrateVal, calibrateModel_fitted [0, 0] [1, 2] 2 false 0
        (by norm_num [u32]) (by norm_num) 0 0 rfl rfl]
      norm_num [scanSeg, calScan, segSlopes, segIcepts, segSlope, segIcept, List.range_succ]
    have hx : ((([0, 0] : List ℚ)[1]?).getD 0) = 0 := rfl
    have hy : ((([1, 2] : List ℚ)[1]?).getD 0) = 2 := rfl
    rw [hx, hy, heval]
    intro h
    have := Option.some.inj h
    norm_num at this

/-- C1 (amended): on a valid table whose raw values are strictly increasing
(no tied knots), `begin` returns true and `calibrate(raw[i])` returns exactly
`calibrated[i]` for every table index; at an interior knot both the segment
ending at `i` (which the first-match scan picks) and the segment beginning at
`i` evaluate to `calibrated[i]`. -/
theorem claim_C1 (raw cal : List ℚ) (N : Nat) (limit : Bool)
    (hr : raw.length = N) (hc : cal.length = N) (hN : 2 ≤ N) (hu : N < u32)
    (hs : strictRaw raw) :
    beginModel (mkCalibrator raw cal N limit) = some (true, fittedState raw cal N limit) ∧
    (∀ i, i < N →
      calibrateVal (fittedState raw cal N limit) ((raw[i]?).getD 0) =
        some ((cal[i]?).getD 0)) ∧
    (∀ i, 0 < i → i + 1 < N →
      segSlope raw cal (i - 1) * (raw[i]?).getD 0 + segIcept raw cal (i - 1) =
        (cal[i]?).getD 0 ∧
      segSlope raw cal i * (raw[i]?).getD 0 + segIcept raw cal i = (cal[i]?).getD 0) := by
  have hsort := strictRaw_sorted raw hs
  refine ⟨beginModel_mk raw cal N limit hr hc hN hu hsort, ?_, ?_⟩
  · intro i hi
    have e0 : raw[0]? = some ((raw[0]?).getD 0) := getq_eq raw 0 (by omega)
    have eL : raw[N - 1]? = some ((raw[N - 1]?).getD 0) := getq_eq raw (N - 1) (by omega)
    have hx0 : (raw[0]?).getD 0 ≤ (raw[i]?).getD 0 :=
      sortedRaw_mono raw hsort i 0 (by omega) (by omega)
    have hxL : (raw[i]?).getD 0 ≤ (raw[N - 1]?).getD 0 :=
      sortedRaw_mono raw hsort (N - 1) i (by omega) (by omega)
    obtain ⟨v, hv⟩ := scanSeg_finds raw (segSlopes raw cal (N - 1)) (segIcepts raw cal (N - 1))
      ((raw[i]?).getD 0) (N - 1) 0 (by omega) (by omega) (by rw [segSlopes_length]; omega)
      (by rw [segIcepts_length]; omega) hx0 (by rw [Nat.zero_add]; exact hxL)
    obtain ⟨t, ht0, ht1, ht2, ht3, ht4⟩ :=
      scanSeg_value raw (segSlopes raw cal (N - 1)) (segIcepts raw cal (N - 1))
        ((raw[i]?).getD 0) (N - 1) 0 v hv
    have htlen : t + 1 < raw.length := by omega
    have htle : t ≤ i := by
      by_contra hlt
      push_neg at hlt
      have hmono := strictRaw_mono raw hs t i hlt (by omega)
      exact absurd ht2 (not_le.mpr hmono)
    have hige : i ≤ t + 1 := by
      by_contra hgt
      push_neg at hgt
      have hmono := strictRaw_mono raw hs i (t + 1) hgt (by omega)
      exact absurd ht3 (not_le.mpr hmono)
    have hvv : v = (cal[i]?).getD 0 := by
      rcases Nat.lt_or_ge t i with hti | hti
      · have hit : i = t + 1 := by omega
        subst hit
        rw [ht4, segSlopes_get raw cal (N - 1) t (by omega),
          segIcepts_get raw cal (N - 1) t (by omega)]
        simp only [Option.getD_some]
        exact segLine_right raw cal t (ne_of_lt (hs t htlen))
      · have hit : t = i := by omega
        subst hit
        rw [ht4, segSlopes_get raw cal (N - 1) t (by omega),
          segIcepts_get raw cal (N - 1) t (by omega)]
        simp only [Option.getD_some]
        exact segLine_left raw cal t
    rw [calibrateVal, calibrateModel_fitted raw cal N limit ((raw[i]?).getD 0) hu hN _ _ e0 eL,
      if_neg (not_lt.mpr hx0), if_neg (not_lt.mpr hxL), hv]
    simp only [calScan, Option.map_some]
    exact congrArg some hvv
  · intro i h0 hiN
    obtain ⟨j, rfl⟩ : ∃ j, i = j + 1 := ⟨i - 1, by omega⟩
    refine ⟨?_, segLine_left raw cal (j + 1)⟩
    rw [show j + 1 - 1 = j from by omega]
    exact segLine_right raw cal j (ne_of_lt (hs j (by omega)))

/-- Witness for amended C1 at the strictly increasing table `raw = [0, 1]`,
`cal = [0, 2]`. -/
theorem claim_C1_witness :
    beginModel (mkCalibrator [0, 1] [0, 2] 2 false) =
      some (true, fittedState [0, 1] [0, 2] 2 false) ∧
    (∀ i, i < 2 →
      calibrateVal (fittedState [0, 1] [0, 2] 2 false) ((([0, 1] : List ℚ)[i]?).getD 0) =
        some ((([0, 2] : List ℚ)[i]?).getD 0)) ∧
    (∀ i, 0 < i → i + 1 < 2 →
      segSlope [0, 1] [0, 2] (i - 1) * ((([0, 1] : List ℚ)[i]?).getD 0) +
          segIcept [0, 1] [0, 2] (i - 1) = (([0, 2] : List ℚ)[i]?).getD 0 ∧
      segSlope [0, 1] [0, 2] i * ((([0, 1] : List ℚ)[i]?).getD 0) +
          segIcept [0, 1] [0, 2] i = (([0, 2] : List ℚ)[i]?).getD 0) :=
  claim_C1 [0, 1] [0, 2] 2 false rfl rfl (by norm_num) (by norm_num [u32])
    (strictRaw_pair 0 1 (by norm_num))

/-- C6 fails as stated: `begin` returns true on the tied table
`raw = [0, 0]`, `cal = [1, 2]`, but for segment 0 the identity
`m[0]*raw[1] + b[0] = calibrated[1]` does not hold — no line through the
zero-width segment can take both values 1 and 2 at the same abscissa (in the
C++ the slope is a division by zero). -/
theorem claim_C6_counterexample :
    beginModel (mkCalibrator [0, 0] [1, 2] 2 false) =
      some (true, fittedState [0, 0] [1, 2] 2 false) ∧
    segSlope [0, 0] [1, 2] 0 * ((([0, 0] : List ℚ)[0 + 1]?).getD 0) +
        segIcept [0, 0] [1, 2] 0 ≠ (([1, 2] : List ℚ)[0 + 1]?).getD 0 := by
  constructor
  · exact beginModel_mk [0, 0] [1, 2] 2 false rfl rfl (by norm_num) (by norm_num [u32])
      (sortedRaw_pair 0 0 le_rfl)
  · norm_num [segSlope, segIcept]

/-- C6 (amended): after a successful `begin` on a table with strictly
increasing raw values, the calibrator holds exactly `N - 1` slope entries and
`N - 1` intercept entries — the two heap blocks of the fitted state — and
every segment's stored `m[i] = (cal[i+1]-cal[i])/(raw[i+1]-raw[i])` and
`b[i] = cal[i] - m[i]*raw[i]` satisfy both knot identities
`m[i]*raw[i] + b[i] = calibrated[i]` and `m[i]*raw[i+1] + b[i] =
calibrated[i+1]` exactly.  The left identity holds for any table; the right
identity needs the nonzero raw gap the amendment adds. -/
theorem claim_C6 (raw cal : List ℚ) (N : Nat) (limit : Bool)
    (hr : raw.length = N) (hc : cal.length = N) (hN : 2 ≤ N) (hu : N < u32)
    (hs : strictRaw raw) :
    beginModel (mkCalibrator raw cal N limit) = some (true, fittedState raw cal N limit) ∧
    (fittedState raw cal N limit).heap =
      [segSlopes raw cal (N - 1), segIcepts raw cal (N - 1)] ∧
    (segSlopes raw cal (N - 1)).length = N - 1 ∧
    (segIcepts raw cal (N - 1)).length = N - 1 ∧
    (∀ i, i < N - 1 →
      (segSlopes raw cal (N - 1))[i]? = some (segSlope raw cal i) ∧
      (segIcepts raw cal (N - 1))[i]? = some (segIcept raw cal i) ∧
      segSlope raw cal i * (raw[i]?).getD 0 + segIcept raw cal i = (cal[i]?).getD 0 ∧
      segSlope raw cal i * (raw[i + 1]?).getD 0 + segIcept raw cal i =
        (cal[i + 1]?).getD 0) := by
  refine ⟨beginModel_mk raw cal N limit hr hc hN hu (strictRaw_sorted raw hs), rfl,
    segSlopes_length raw cal (N - 1), segIcepts_length raw cal (N - 1), ?_⟩
  intro i hi
  exact ⟨segSlopes_get raw cal (N - 1) i hi, segIcepts_get raw cal (N - 1) i hi,
    segLine_left raw cal i, segLine_right raw cal i (ne_of_lt (hs i (by omega)))⟩

/-- Witness for amended C6 at the strictly increasing table `raw = [0, 1]`,
`cal = [0, 2]`. -/
theorem claim_C6_witness :
    beginModel (mkCalibrator [0, 1] [0, 2] 2 false) =
      some (true, fittedState [0, 1] [0, 2] 2 false) ∧
    (fittedState [0, 1] [0, 2] 2 false).heap =
      [segSlopes [0, 1] [0, 2] (2 - 1), segIcepts [0, 1] [0, 2] (2 - 1)] ∧
    (segSlopes [0, 1] [0, 2] (2 - 1)).length = 2 - 1 ∧
    (segIcepts [0, 1] [0, 2] (2 - 1)).length = 2 - 1 ∧
    (∀ i, i < 2 - 1 →
      (segSlopes [0, 1] [0, 2] (2 - 1))[i]? = some (segSlope [0, 1] [0, 2] i) ∧
      (segIcepts [0, 1] [0, 2] (2 - 1))[i]? = some (segIcept [0, 1] [0, 2] i) ∧
      segSlope [0, 1] [0, 2] i * ((([0, 1] : List ℚ)[i]?).getD 0) +
          segIcept [0, 1] [0, 2] i = (([0, 2] : List ℚ)[i]?).getD 0 ∧
      segSlope [0, 1] [0, 2] i * ((([0, 1] : List ℚ)[i + 1]?).getD 0) +
          segIcept [0, 1] [0, 2] i = (([0, 2] : List ℚ)[i + 1]?).getD 0) :=
  claim_C6 [0, 1] [0, 2] 2 false rfl rfl (by norm_num) (by norm_num [u32])
    (strictRaw_pair 0 1 (by norm_num))
